import Mathlib

/-!
Verification of the schema-driven ingestion engine in
`cmd/lockbox/cmd/write.go` (repository rohan-flutterint/lockbox).

The Go source is shallowly embedded: each adapter
(`generateSampleData`, `loadDataFromFile` for CSV, `loadDataFromJSON`,
`loadBlobRecord`, `loadDataFromORCToParquet`) and the batch
concatenator (`concatRecords`) are translated into executable Lean
definitions over an explicit data model of Arrow schemas, columns and
records.  Machine integers are modelled as `Int` with explicit wrapping
where Go performs narrowing conversions; fallible Go functions
returning `(T, error)` become `Except WError T`; Go runtime panics
(index out of range) are modelled by the distinguished error
`WError.panicIndex`; file-system reads are passed in as functions
`String → Option (List UInt8)`.  JSON numbers (Go `float64` after
`encoding/json` decoding) are modelled as exact rationals.
-/

deriving instance DecidableEq for Except

namespace Lockbox

/-- `arrow.TimeUnit`: the four units carried by `arrow.TimestampType`. -/
inductive TimeUnit where
  | second
  | millisecond
  | microsecond
  | nanosecond
deriving DecidableEq

/-- The closed set of Arrow logical types the ingestion code
distinguishes in its type switches: `arrow.PrimitiveTypes.Int32/Int64/
Float64`, `arrow.BinaryTypes.String/Binary/LargeBinary`,
`arrow.TimestampType`, plus a constructor standing for any other
`arrow.DataType` (those only ever hit `default` branches). -/
inductive LogicalType where
  | int32
  | int64
  | float64
  | str
  | binary
  | largeBinary
  | timestamp (unit : TimeUnit)
  | otherType
deriving DecidableEq

/-- `arrow.Field`: name, logical type, nullability (metadata dropped). -/
structure Field where
  name : String
  type : LogicalType
  nullable : Bool
deriving DecidableEq

/-- `arrow.Schema`: the ordered field list (endianness/metadata dropped). -/
abbrev Schema := List Field

/-- A value held by one cell of a typed Arrow array.  `int` covers both
Int32 and Int64 cells (the width is tracked by the column's type);
`float` models a Go `float64` as an exact rational. -/
inductive Value where
  | int (n : Int)
  | float (q : ℚ)
  | str (s : String)
  | bytes (data : List UInt8)
  | timestamp (n : Int)
deriving DecidableEq

/-- A finalized `arrow.Array`: its data type and its cells in order,
`none` marking a null position. -/
structure Column where
  dtype : LogicalType
  cells : List (Option Value)
deriving DecidableEq

/-- An `arrow.Record`.  `array.NewRecord(schema, arrays, numRows)`
validates the columns against the schema and panics on inconsistency
(see `newRecord` below); `generateSampleData` and `loadBlobRecord`,
whose builder selection can diverge from the schema, go through
`newRecord`, while `buildRecord` constructs directly because its
builder types are the schema's field types and all its columns have
one cell per processed row, so the validation necessarily passes
there. -/
structure Record where
  schema : Schema
  columns : List Column
  numRows : Int
deriving DecidableEq

def defaultField : Field := ⟨"", LogicalType.str, true⟩

def defaultColumn : Column := ⟨LogicalType.str, []⟩

/-- Errors returned (or panics raised) by the ingestion code.  Each
constructor corresponds to one `fmt.Errorf` site in `write.go` and
carries exactly the data interpolated into that message. -/
inductive WError where
  /-- `"unsupported type: %v"` from builder construction. -/
  | unsupportedType
  /-- `"failed to read CSV header: %w"` (EOF on an empty file). -/
  | csvHeaderErr
  /-- `"error reading row %d: %w"`: the `encoding/csv` reader itself
  failed, e.g. `ErrFieldCount` when a row's length differs from the
  header's.  Carries only the row number. -/
  | csvReadErr (rowNum : Nat)
  /-- `"row %d: expected %d fields, got %d"`. -/
  | fieldCount (rowNum expected got : Nat)
  /-- `"row %d, col %s: invalid int64: %v"`. -/
  | invalidInt64 (rowNum : Nat) (col : String) (val : String)
  /-- `"row %d, col %s: invalid int32: %v"`. -/
  | invalidInt32 (rowNum : Nat) (col : String) (val : String)
  /-- `"row %d, col %s: invalid float64: %v"`. -/
  | invalidFloat64 (rowNum : Nat) (col : String) (val : String)
  /-- `"row %d, col %s: invalid timestamp: %v"`. -/
  | invalidTimestamp (rowNum : Nat) (col : String) (val : String)
  /-- `"unknown timestamp unit: %v"`. -/
  | unknownTimestampUnit
  /-- `"row %d: missing non-nullable field '%s'"`. -/
  | missingField (rowNum : Nat) (col : String)
  /-- `"row %d, col %s: expected <type>, got %T"`. -/
  | typeMismatch (rowNum : Nat) (col : String)
  /-- `"row %d, col %s: invalid timestamp type: %T"`. -/
  | invalidTimestampType (rowNum : Nat) (col : String)
  /-- `"unsupported type in row %d, col %s: %v"`. -/
  | unsupportedTypeAt (rowNum : Nat) (col : String)
  /-- `"JSON decode error: %w"` from the NDJSON fallback loop. -/
  | jsonDecodeErr
  /-- `"read blob %s: %w"`: `os.ReadFile` failed for a blob field. -/
  | readBlob (col : String)
  /-- `array.Concatenate` error (zero arrays or mismatched types). -/
  | concatErr
  /-- `"no data found in Parquet file"`. -/
  | noData
  /-- A Go runtime panic: index out of range (e.g. `arrays[0]` when the
  schema has no fields).  The run dies without producing a record. -/
  | panicIndex
  /-- A Go runtime panic raised by `array.NewRecord` when its
  validation fails ("arrow/array: column %q type mismatch" and
  kindred).  The run dies without producing a record. -/
  | panicNewRecord
  /-- `lockbox.CoerceRecord` failure (modelled from the spec). -/
  | coerceErr
deriving DecidableEq

/-- The `validate()` check run by `array.NewRecord`: an empty record
(zero rows, zero columns) passes outright; otherwise the column count
must equal the schema's field count and every column's data type must
equal its field's type (`arrow.TypeEqual`) with at least `rows` cells
(`NewRecord panics if rows is larger than the height of the
columns`). -/
def recordValidate (schema : Schema) (cols : List Column) (rows : Int) : Bool :=
  if rows = 0 ∧ cols.length = 0 then true
  else if cols.length ≠ schema.length then false
  else (List.range cols.length).all fun i =>
    decide ((cols.getD i defaultColumn).dtype = (schema.getD i defaultField).type) &&
    decide (rows ≤ ((cols.getD i defaultColumn).cells.length : Int))

/-- `array.NewRecord(schema, arrays, numRows)`: panics (modelled as
`WError.panicNewRecord`) when `validate()` fails. -/
def newRecord (schema : Schema) (cols : List Column) (rows : Int) :
    Except WError Record :=
  if recordValidate schema cols rows then Except.ok ⟨schema, cols, rows⟩
  else Except.error WError.panicNewRecord

/-! ## Go `strconv` parsing, modelled

`strconv.ParseInt(s, 10, bitSize)`: an optional sign followed by at
least one decimal digit, rejected when the value overflows the given
bit size.  (Underscore digit separators are only accepted with base 0,
so they are rightly absent here.)  `strconv.ParseFloat(s, 64)` is
modelled on decimal/exponent literals as an exact rational; the `Inf`,
`NaN` and hexadecimal-float spellings Go also accepts, and the rounding
to the nearest binary float64, are outside the model — no claim
depends on them. -/

def digitVal (c : Char) : Option Nat :=
  if '0' ≤ c ∧ c ≤ '9' then some (c.toNat - 48) else none

def digitsToNat : List Char → Option Nat
  | [] => none
  | cs => cs.foldlM (fun acc c => (digitVal c).map (fun d => acc * 10 + d)) 0

def parseIntBase10 (s : String) : Option Int :=
  match s.toList with
  | '+' :: cs => (digitsToNat cs).map (fun n => (n : Int))
  | '-' :: cs => (digitsToNat cs).map (fun n => -(n : Int))
  | cs => (digitsToNat cs).map (fun n => (n : Int))

/-- `strconv.ParseInt(s, 10, 64)`. -/
def parseInt64 (s : String) : Option Int :=
  (parseIntBase10 s).bind fun z =>
    if -(2 ^ 63) ≤ z ∧ z ≤ 2 ^ 63 - 1 then some z else none

/-- `strconv.ParseInt(s, 10, 32)`; the subsequent Go `int32(v)`
conversion is the identity because the bit size already bounds `v`. -/
def parseInt32 (s : String) : Option Int :=
  (parseIntBase10 s).bind fun z =>
    if -(2 ^ 31) ≤ z ∧ z ≤ 2 ^ 31 - 1 then some z else none

def takeDigits : List Char → (List Nat × List Char)
  | [] => ([], [])
  | c :: cs =>
    match digitVal c with
    | some d => let (ds, rest) := takeDigits cs; (d :: ds, rest)
    | none => ([], c :: cs)

def natOfDigits (ds : List Nat) : Nat :=
  ds.foldl (fun acc d => acc * 10 + d) 0

/-- `strconv.ParseFloat(s, 64)` on plain decimal literals, as an exact
rational: sign, integer digits, optional fraction, optional exponent;
at least one mantissa digit is required. -/
def parseFloatQ (s : String) : Option ℚ :=
  let core : List Char → Option ℚ := fun cs =>
    let (ip, rest1) := takeDigits cs
    let (fp, rest2) :=
      match rest1 with
      | '.' :: cs2 => takeDigits cs2
      | _ => ([], rest1)
    if ip.length + fp.length = 0 then none
    else
      let mant : ℚ := (natOfDigits (ip ++ fp) : ℚ) / ((10 : ℚ) ^ fp.length)
      match rest2 with
      | [] => some mant
      | e :: cs3 =>
        if e = 'e' ∨ e = 'E' then
          let (sgn, cs4) :=
            match cs3 with
            | '+' :: cs5 => (1, cs5)
            | '-' :: cs5 => (-1, cs5)
            | _ => ((1 : Int), cs3)
          match cs4 with
          | [] => none
          | _ =>
            let (eds, rest5) := takeDigits cs4
            if eds.length = 0 ∨ rest5 ≠ [] then none
            else some (mant * (10 : ℚ) ^ (sgn * (natOfDigits eds : Int)))
        else none
  match s.toList with
  | '+' :: cs => core cs
  | '-' :: cs => (core cs).map Neg.neg
  | cs => core cs

/-! ## Go `time.Parse(time.RFC3339, s)`, modelled

Go's optimized `parseRFC3339`: exactly
`YYYY-MM-DDTHH:MM:SS[.fraction](Z|±HH:MM)` with ranges year 0–9999,
month 1–12, day 1–daysIn(month, year), hour 0–23, minute 0–59, second
0–59; fractional digits beyond nine are dropped; the zone designator is
a literal `'Z'` or a sign, two hour digits, `':'`, two minute digits.
The result is the pair (Unix seconds, nanoseconds within the second),
matching Go's internal `(t.unixSec(), t.Nanosecond())`. -/

def isLeapYear (y : Nat) : Bool :=
  y % 4 = 0 ∧ (y % 100 ≠ 0 ∨ y % 400 = 0)

/-- `time.daysIn(month, year)`. -/
def daysIn (m y : Nat) : Nat :=
  if m = 2 then (if isLeapYear y then 29 else 28)
  else if m = 4 ∨ m = 6 ∨ m = 9 ∨ m = 11 then 30
  else 31

/-- Days from the Unix epoch to the given proleptic-Gregorian civil
date (Howard Hinnant's `days_from_civil`, which Go's `time.Date`
absolute-day computation agrees with on valid dates). -/
def daysFromCivil (y : Int) (m d : Nat) : Int :=
  let y2 : Int := if m ≤ 2 then y - 1 else y
  let era : Int := (if 0 ≤ y2 then y2 else y2 - 399) / 400
  let yoe : Int := y2 - era * 400
  let mp : Nat := if 2 < m then m - 3 else m + 9
  let doy : Int := ((153 * mp + 2) / 5 + d - 1 : Nat)
  let doe : Int := yoe * 365 + yoe / 4 - yoe / 100 + doy
  era * 146097 + doe - 719468

def twoDigits (a b : Char) : Option Nat := do
  let x ← digitVal a
  let y ← digitVal b
  pure (x * 10 + y)

/-- Nanoseconds from a fractional-second digit run
(`time.parseNanoseconds`: at most nine digits are kept). -/
def nsecOfDigits (ds : List Nat) : Nat :=
  let kept := ds.take 9
  natOfDigits kept * 10 ^ (9 - kept.length)

/-- The zone suffix of an RFC 3339 string: offset in seconds east of
UTC. -/
def parseZone : List Char → Option Int
  | ['Z'] => some 0
  | [sgn, h1, h2, ':', m1, m2] => do
    if sgn = '+' ∨ sgn = '-' then
      let hr ← twoDigits h1 h2
      let mm ← twoDigits m1 m2
      if hr ≤ 23 ∧ mm ≤ 59 then
        let off : Int := (hr * 60 + mm) * 60
        pure (if sgn = '-' then -off else off)
      else none
    else none
  | _ => none

/-- Optional fractional second then the zone: Go consumes a fraction
only when a `'.'` is immediately followed by a digit. -/
def parseFracZone : List Char → Option (Nat × Int)
  | '.' :: c :: cs =>
    match digitVal c with
    | some d => do
      let (ds, rest) := takeDigits cs
      let off ← parseZone rest
      pure (nsecOfDigits (d :: ds), off)
    | none => do
      let off ← parseZone ('.' :: c :: cs)
      pure (0, off)
  | rest => do
    let off ← parseZone rest
    pure (0, off)

/-- `time.Parse(time.RFC3339, s)`, returning `(unix seconds, nsec)`. -/
def timeParseRFC3339 (s : String) : Option (Int × Nat) :=
  match s.toList with
  | y1 :: y2 :: y3 :: y4 :: '-' :: m1 :: m2 :: '-' :: d1 :: d2 :: 'T' ::
      h1 :: h2 :: ':' :: mi1 :: mi2 :: ':' :: s1 :: s2 :: rest => do
    let ya ← twoDigits y1 y2
    let yb ← twoDigits y3 y4
    let year := ya * 100 + yb
    let month ← twoDigits m1 m2
    let day ← twoDigits d1 d2
    let hour ← twoDigits h1 h2
    let minute ← twoDigits mi1 mi2
    let sec ← twoDigits s1 s2
    if 1 ≤ month ∧ month ≤ 12 ∧ 1 ≤ day ∧ day ≤ daysIn month year ∧
        hour ≤ 23 ∧ minute ≤ 59 ∧ sec ≤ 59 then
      let (nsec, off) ← parseFracZone rest
      let unixSec : Int :=
        daysFromCivil year month day * 86400 +
          (hour * 3600 + minute * 60 + sec : Nat) - off
      pure (unixSec, nsec)
    else none
  | _ => none

/-- Projection of an instant to a timestamp unit: `tm.Unix()`,
`tm.UnixMilli()`, `tm.UnixMicro()`, `tm.UnixNano()`.  The sub-unit part
of the nanosecond field is discarded by integer division. -/
def projectUnit (u : TimeUnit) (sec : Int) (nsec : Nat) : Int :=
  match u with
  | TimeUnit.second => sec
  | TimeUnit.millisecond => sec * 1000 + (nsec / 1000000 : Nat)
  | TimeUnit.microsecond => sec * 1000000 + (nsec / 1000 : Nat)
  | TimeUnit.nanosecond => sec * 1000000000 + nsec

/-! ## Narrowing conversions from Go `float64`

`encoding/json` decodes every JSON number into a `float64`; the code
then converts with `int64(v)` / `int32(v)`.  Numbers are modelled as
exact rationals; the conversion truncates toward zero.  For values
outside the target's range Go's conversion is implementation-defined;
it is modelled as two's-complement wrapping. -/

def ratTrunc (q : ℚ) : Int := q.num.tdiv (q.den : Int)

def wrapInt64 (z : Int) : Int := (z + 2 ^ 63) % 2 ^ 64 - 2 ^ 63

def wrapInt32 (z : Int) : Int := (z + 2 ^ 31) % 2 ^ 32 - 2 ^ 31

/-! ## Builder construction

Both `loadDataFromFile` and `loadDataFromJSON` open with the same type
switch creating one `array.Builder` per schema field and failing the
whole run on any other type (`"unsupported type: %v"`).  The builder's
data type equals the field's type for every supported case. -/

def builderTypes (schema : Schema) : Except WError (List LogicalType) :=
  match schema with
  | [] => Except.ok []
  | f :: fs =>
    match f.type with
    | LogicalType.int64 | LogicalType.int32 | LogicalType.float64
    | LogicalType.str | LogicalType.timestamp _ => do
      let ts ← builderTypes fs
      Except.ok (f.type :: ts)
    | _ => Except.error WError.unsupportedType

/-- Finalizing the builders into a record: `arrays[i] = builders[i].
NewArray()`, `numRows := int64(arrays[0].Len())`, `array.NewRecord`.
With an empty schema `arrays[0]` panics; otherwise column 0 holds one
cell per processed row, so its length is the row count. -/
def buildRecord (schema : Schema) (tys : List LogicalType)
    (rows : List (List (Option Value))) : Except WError Record :=
  match schema with
  | [] => Except.error WError.panicIndex
  | _ :: _ =>
    Except.ok ⟨schema,
      (List.range schema.length).map fun i =>
        Column.mk (tys.getD i LogicalType.str) (rows.map fun r => r.getD i none),
      ((rows.map fun r => r.getD 0 none).length : Int)⟩

/-! ## Textual-row (CSV) adapter: `loadDataFromFile`

The input is the list of records the `encoding/csv` reader yields, the
first being the header.  The reader's `FieldsPerRecord` check is part
of the model: it is primed by the header and makes `Read` fail on any
subsequent record of a different length, before the adapter's own
field-count check runs. -/

/-- One cell of one CSV row through the per-type switch. -/
def coerceCSVField (rowNum : Nat) (f : Field) (val : String) :
    Except WError (Option Value) :=
  match f.type with
  | LogicalType.int64 =>
    if val = "" ∧ f.nullable then Except.ok none
    else
      match parseInt64 val with
      | some v => Except.ok (some (Value.int v))
      | none => Except.error (WError.invalidInt64 rowNum f.name val)
  | LogicalType.int32 =>
    if val = "" ∧ f.nullable then Except.ok none
    else
      match parseInt32 val with
      | some v => Except.ok (some (Value.int v))
      | none => Except.error (WError.invalidInt32 rowNum f.name val)
  | LogicalType.float64 =>
    if val = "" ∧ f.nullable then Except.ok none
    else
      match parseFloatQ val with
      | some v => Except.ok (some (Value.float v))
      | none => Except.error (WError.invalidFloat64 rowNum f.name val)
  | LogicalType.str =>
    if val = "" ∧ f.nullable then Except.ok none
    else Except.ok (some (Value.str val))
  | LogicalType.timestamp u =>
    if val = "" ∧ f.nullable then Except.ok none
    else
      match timeParseRFC3339 val with
      | some (sec, nsec) =>
        Except.ok (some (Value.timestamp (projectUnit u sec nsec)))
      | none => Except.error (WError.invalidTimestamp rowNum f.name val)
  | _ => Except.error (WError.unsupportedTypeAt rowNum f.name)

/-- The inner `for i, val := range row` loop, walking schema fields and
row cells in lockstep (their lengths are equal at every call site). -/
def coerceCSVRow (rowNum : Nat) : Schema → List String →
    Except WError (List (Option Value))
  | f :: fs, v :: vs => do
    let c ← coerceCSVField rowNum f v
    let cs ← coerceCSVRow rowNum fs vs
    Except.ok (c :: cs)
  | _, _ => Except.ok []

/-- The outer row loop (`for rowNum := 2; ; rowNum++`).  `headerLen`
models the csv reader's `FieldsPerRecord`, set by the header read. -/
def processCSVRows (schema : Schema) (headerLen : Nat) :
    Nat → List (List String) → Except WError (List (List (Option Value)))
  | _, [] => Except.ok []
  | rowNum, row :: rest =>
    if row.length ≠ headerLen then Except.error (WError.csvReadErr rowNum)
    else if row.length ≠ schema.length then
      Except.error (WError.fieldCount rowNum schema.length row.length)
    else do
      let cells ← coerceCSVRow rowNum schema row
      let more ← processCSVRows schema headerLen (rowNum + 1) rest
      Except.ok (cells :: more)

/-- `loadDataFromFile`, with the file contents already lexed by the csv
reader into records. -/
def loadDataFromFile (schema : Schema) (rows : List (List String)) :
    Except WError Record := do
  let tys ← builderTypes schema
  match rows with
  | [] => Except.error WError.csvHeaderErr
  | header :: dataRows => do
    let cells ← processCSVRows schema header.length 2 dataRows
    buildRecord schema tys cells

/-! ## Keyed-object (JSON) adapter: `loadDataFromJSON`

A decoded JSON object field value (Go `interface{}`): numbers arrive as
`float64` (modelled as exact rationals), nested arrays/objects are
collapsed into `other` carrying the string `fmt.Sprintf("%v", val)`
would render — the adapter only ever renders or rejects them. -/
inductive JPrim where
  | null
  | bool (b : Bool)
  | num (q : ℚ)
  | str (s : String)
  | other (rendered : String)
deriving DecidableEq

/-- A decoded `map[string]interface{}`; a JSON `null` decodes to a nil
map, modelled as the empty list. -/
abbrev JObj := List (String × JPrim)

/-- An element of a top-level JSON array, as `json.Decoder` would
unmarshal it into a `map[string]interface{}` slot. -/
inductive JArrElem where
  | aobj (o : JObj)
  | anull
  | aother
deriving DecidableEq

/-- One top-level JSON value in the input stream. -/
inductive JTop where
  | obj (o : JObj)
  | arr (elems : List JArrElem)
  | null
  | scalar
deriving DecidableEq

/-- Go map indexing `rec[field.Name]`: `encoding/json` keeps the last
duplicate key. -/
def lookupField (r : JObj) (name : String) : Option JPrim :=
  r.reverse.lookup name

/-- Decoding one top-level value into `[]map[string]interface{}`
(stage one of the probe): succeeds on an array whose elements are all
objects or nulls, and on a bare `null` (yielding a nil slice). -/
def decodeArray : JTop → Option (List JObj)
  | JTop.arr es =>
    es.mapM fun e =>
      match e with
      | JArrElem.aobj o => some o
      | JArrElem.anull => some []
      | JArrElem.aother => none
  | JTop.null => some []
  | _ => none

/-- Decoding one top-level value into `map[string]interface{}` (one
iteration of the NDJSON fallback loop). -/
def decodeTopObj : JTop → Option JObj
  | JTop.obj o => some o
  | JTop.null => some []
  | _ => none

/-- The NDJSON fallback loop: decode every top-level value in the
stream as an object, failing on the first value that is not one. -/
def ndjsonDecode : List JTop → Except WError (List JObj)
  | [] => Except.ok []
  | v :: rest =>
    match decodeTopObj v with
    | some o => do
      let os ← ndjsonDecode rest
      Except.ok (o :: os)
    | none => Except.error WError.jsonDecodeErr

/-- The two-stage probe: try to decode the whole document as one
top-level array of objects; on failure seek back to the start and
decode newline-delimited objects.  (On an empty stream the first
decode returns `io.EOF`, and the fallback loop yields no records.) -/
def parseJSONRecords (input : List JTop) : Except WError (List JObj) :=
  match input with
  | [] => Except.ok []
  | v :: _ =>
    match decodeArray v with
    | some recs => Except.ok recs
    | none => ndjsonDecode input

/-- `fmt.Sprintf("%v", val)` for the string-target fallback.  The
rendering of non-integral numbers is approximated (Go would use `%g`
formatting); no claim depends on it. -/
def goFmtV : JPrim → String
  | JPrim.null => "<nil>"
  | JPrim.bool b => if b then "true" else "false"
  | JPrim.num q => if q.den = 1 then toString q.num else toString q
  | JPrim.str s => s
  | JPrim.other rendered => rendered

/-- The per-type switch on a present, non-null JSON value. -/
def coerceJSONValue (rowNum : Nat) (f : Field) (v : JPrim) :
    Except WError (Option Value) :=
  match f.type with
  | LogicalType.int64 =>
    match v with
    | JPrim.num q => Except.ok (some (Value.int (wrapInt64 (ratTrunc q))))
    | JPrim.str s =>
      if s = "" ∧ f.nullable then Except.ok none
      else
        match parseInt64 s with
        | some n => Except.ok (some (Value.int n))
        | none => Except.error (WError.invalidInt64 (rowNum + 1) f.name s)
    | _ => Except.error (WError.typeMismatch (rowNum + 1) f.name)
  | LogicalType.int32 =>
    match v with
    | JPrim.num q => Except.ok (some (Value.int (wrapInt32 (ratTrunc q))))
    | JPrim.str s =>
      if s = "" ∧ f.nullable then Except.ok none
      else
        match parseInt32 s with
        | some n => Except.ok (some (Value.int n))
        | none => Except.error (WError.invalidInt32 (rowNum + 1) f.name s)
    | _ => Except.error (WError.typeMismatch (rowNum + 1) f.name)
  | LogicalType.float64 =>
    match v with
    | JPrim.num q => Except.ok (some (Value.float q))
    | JPrim.str s =>
      if s = "" ∧ f.nullable then Except.ok none
      else
        match parseFloatQ s with
        | some q => Except.ok (some (Value.float q))
        | none => Except.error (WError.invalidFloat64 (rowNum + 1) f.name s)
    | _ => Except.error (WError.typeMismatch (rowNum + 1) f.name)
  | LogicalType.str =>
    match v with
    | JPrim.str s =>
      if s = "" ∧ f.nullable then Except.ok none
      else Except.ok (some (Value.str s))
    | v2 => Except.ok (some (Value.str (goFmtV v2)))
  | LogicalType.timestamp u =>
    match v with
    | JPrim.str s =>
      if s = "" ∧ f.nullable then Except.ok none
      else
        match timeParseRFC3339 s with
        | some (sec, nsec) =>
          Except.ok (some (Value.timestamp (projectUnit u sec nsec)))
        | none => Except.error (WError.invalidTimestamp (rowNum + 1) f.name s)
    | _ => Except.error (WError.invalidTimestampType (rowNum + 1) f.name)
  | _ => Except.error WError.unsupportedType

/-- One schema field of one record: the lookup and the
absent-or-null / nullable routing (`val, ok := rec[field.Name]; if !ok
|| val == nil { ... }`). -/
def coerceJSONField (rowNum : Nat) (f : Field) (r : JObj) :
    Except WError (Option Value) :=
  match lookupField r f.name with
  | none => if f.nullable then Except.ok none
            else Except.error (WError.missingField (rowNum + 1) f.name)
  | some JPrim.null => if f.nullable then Except.ok none
                       else Except.error (WError.missingField (rowNum + 1) f.name)
  | some v => coerceJSONValue rowNum f v

/-- The inner `for i, field := range schema.Fields()` loop. -/
def coerceJSONRow (rowNum : Nat) : Schema → JObj →
    Except WError (List (Option Value))
  | [], _ => Except.ok []
  | f :: fs, r => do
    let c ← coerceJSONField rowNum f r
    let cs ← coerceJSONRow rowNum fs r
    Except.ok (c :: cs)

/-- The outer `for rowNum, rec := range records` loop (0-based). -/
def processJSONRecords (schema : Schema) :
    Nat → List JObj → Except WError (List (List (Option Value)))
  | _, [] => Except.ok []
  | rowNum, r :: rest => do
    let cells ← coerceJSONRow rowNum schema r
    let more ← processJSONRecords schema (rowNum + 1) rest
    Except.ok (cells :: more)

/-- `loadDataFromJSON`, with the file contents already lexed into the
stream of top-level JSON values. -/
def loadDataFromJSON (schema : Schema) (input : List JTop) :
    Except WError Record := do
  let tys ← builderTypes schema
  let records ← parseJSONRecords input
  let rows ← processJSONRecords schema 0 records
  buildRecord schema tys rows

/-! ## Sample-data generator: `generateSampleData`

Five rows; the builder chosen per field type, with a `default` branch
that silently substitutes a string builder for any unsupported type. -/

/-- The data type of the builder `generateSampleData` selects for a
field type (the `default` branch picks a string builder). -/
def sampleColType : LogicalType → LogicalType
  | LogicalType.int64 => LogicalType.int64
  | LogicalType.int32 => LogicalType.int32
  | LogicalType.str => LogicalType.str
  | LogicalType.float64 => LogicalType.float64
  | _ => LogicalType.str

/-- The five cells generated for one field. -/
def sampleCells (f : Field) : List (Option Value) :=
  (List.range 5).map fun i =>
    some (match f.type with
      | LogicalType.int64 => Value.int ((i : Int) + 1)
      | LogicalType.int32 => Value.int (20 + (i : Int))
      | LogicalType.str =>
        if f.name = "name" then Value.str ("User" ++ toString (i + 1))
        else if f.name = "email" then
          Value.str ("user" ++ toString (i + 1) ++ "@example.com")
        else Value.str ("sample_" ++ f.name ++ "_" ++ toString (i + 1))
      | LogicalType.float64 => Value.float (mkRat (3 * i) 2)
      | _ => Value.str ("default_" ++ toString (i + 1)))

/-- `generateSampleData`: its Go error result is always nil, but
`array.NewRecord` validates the arrays against the schema and panics
when a field of unsupported type made the `default` branch build a
String array. -/
def generateSampleData (schema : Schema) : Except WError Record :=
  newRecord schema
    (schema.map fun f => Column.mk (sampleColType f.type) (sampleCells f)) 5

/-! ## Blob adapter: `loadBlobRecord`

`blobs` models the Go `map[string]string` from field name to path;
`files` models `os.ReadFile`.  Go's `string(data)` conversion is
modelled by mapping each byte to the code point of equal value. -/

def decodeBytes (data : List UInt8) : String :=
  String.mk (data.map fun b => Char.ofNat b.toNat)

/-- The data type of the builder `loadBlobRecord` selects for a field
type (the `default` branch picks a string builder). -/
def blobColType : LogicalType → LogicalType
  | LogicalType.binary => LogicalType.binary
  | LogicalType.largeBinary => LogicalType.largeBinary
  | LogicalType.str => LogicalType.str
  | _ => LogicalType.str

/-- What the append type switch puts into the builder for a mapped
field: raw bytes for a binary builder, the decoded string otherwise. -/
def blobValue (t : LogicalType) (data : List UInt8) : Value :=
  match blobColType t with
  | LogicalType.binary => Value.bytes data
  | LogicalType.largeBinary => Value.bytes data
  | _ => Value.str (decodeBytes data)

/-- The append loop body for one field: mapped fields read the file and
append its content; unmapped fields get `AppendNull()` with no
nullability check. -/
def blobCell (blobs : String → Option String)
    (files : String → Option (List UInt8)) (f : Field) :
    Except WError (Option Value) :=
  match blobs f.name with
  | some path =>
    match files path with
    | some data => Except.ok (some (blobValue f.type data))
    | none => Except.error (WError.readBlob f.name)
  | none => Except.ok none

def blobCells (blobs : String → Option String)
    (files : String → Option (List UInt8)) :
    Schema → Except WError (List (Option Value))
  | [] => Except.ok []
  | f :: fs => do
    let c ← blobCell blobs files f
    let cs ← blobCells blobs files fs
    Except.ok (c :: cs)

/-- `loadBlobRecord`: one append per field, then
`array.NewRecord(schema, arrays, 1)`, which panics when a field of
unsupported type made the `default` branch build a String array. -/
def loadBlobRecord (blobs : String → Option String)
    (files : String → Option (List UInt8)) (schema : Schema) :
    Except WError Record := do
  let cells ← blobCells blobs files schema
  newRecord schema
    ((schema.zip cells).map fun fc => Column.mk (blobColType fc.1.type) [fc.2]) 1

/-! ## Batch concatenation: `concatRecords` -/

/-- `array.Concatenate`: fails on zero arrays or when any array's type
differs from the first's; otherwise appends cell lists in order. -/
def concatenate : List Column → Except WError Column
  | [] => Except.error WError.concatErr
  | a :: rest =>
    if rest.all fun c => c.dtype = a.dtype then
      Except.ok ⟨a.dtype, a.cells ++ (rest.map Column.cells).flatten⟩
    else Except.error WError.concatErr

/-- `rec.Column(i)` for every input record: a Go panic if any record
has fewer than `i + 1` columns. -/
def recColumns (i : Nat) : List Record → Except WError (List Column)
  | [] => Except.ok []
  | r :: rs =>
    match r.columns[i]? with
    | none => Except.error WError.panicIndex
    | some c => do
      let cs ← recColumns i rs
      Except.ok (c :: cs)

/-- The `for i := 0; i < numFields; i++` loop, gathering and
concatenating column `i` of every record. -/
def concatFields (records : List Record) : List Nat → Except WError (List Column)
  | [] => Except.ok []
  | i :: is => do
    let arrs ← recColumns i records
    let c ← concatenate arrs
    let cs ← concatFields records is
    Except.ok (c :: cs)

/-- `concatRecords`: `nil, nil` on an empty input (modelled as
`ok none`); otherwise one concatenated column per schema field and a
row count summed over the inputs. -/
def concatRecords (schema : Schema) (records : List Record) :
    Except WError (Option Record) :=
  match records with
  | [] => Except.ok none
  | _ :: _ => do
    let cols ← concatFields records (List.range schema.length)
    Except.ok (some ⟨schema, cols, (records.map Record.numRows).sum⟩)

/-! ## Foreign-batch adapter: `loadDataFromORCToParquet`

The parquet reading itself is I/O; the adapter is modelled on the
sequence of Arrow records the parquet record reader yields. -/

/-- Modelled from the spec: `lockbox.CoerceRecord` lives in
`pkg/lockbox`, which is not part of the sources under review.  Per
§4.6 it re-derives a batch obeying the target schema's field order and
logical types, re-coercing each foreign column through the §4.1 value
rules, with fields missing from the foreign batch handled under the
standard nullability rule. -/
def renderValue : Value → String
  | Value.int n => toString n
  | Value.float q => toString q
  | Value.str s => s
  | Value.bytes d => decodeBytes d
  | Value.timestamp n => toString n

def coerceValueToType (t : LogicalType) (nullable : Bool) :
    Option Value → Except WError (Option Value)
  | none =>
    if nullable then Except.ok none else Except.error WError.coerceErr
  | some v =>
    match t, v with
    | LogicalType.int64, Value.int n => Except.ok (some (Value.int n))
    | LogicalType.int32, Value.int n => Except.ok (some (Value.int n))
    | LogicalType.int64, Value.str s =>
      match parseInt64 s with
      | some n => Except.ok (some (Value.int n))
      | none => Except.error WError.coerceErr
    | LogicalType.int32, Value.str s =>
      match parseInt32 s with
      | some n => Except.ok (some (Value.int n))
      | none => Except.error WError.coerceErr
    | LogicalType.float64, Value.float q => Except.ok (some (Value.float q))
    | LogicalType.float64, Value.str s =>
      match parseFloatQ s with
      | some q => Except.ok (some (Value.float q))
      | none => Except.error WError.coerceErr
    | LogicalType.str, Value.str s => Except.ok (some (Value.str s))
    | LogicalType.str, v2 => Except.ok (some (Value.str (renderValue v2)))
    | LogicalType.timestamp _, Value.timestamp n =>
      Except.ok (some (Value.timestamp n))
    | LogicalType.timestamp u, Value.str s =>
      match timeParseRFC3339 s with
      | some p => Except.ok (some (Value.timestamp (projectUnit u p.1 p.2)))
      | none => Except.error WError.coerceErr
    | LogicalType.binary, Value.bytes d => Except.ok (some (Value.bytes d))
    | LogicalType.largeBinary, Value.bytes d => Except.ok (some (Value.bytes d))
    | _, _ => Except.error WError.coerceErr

/-- Modelled from the spec: the per-field column derivation of
`lockbox.CoerceRecord` (§4.6): look the target field up by name in the
foreign batch; a missing field follows the nullability rule. -/
def coerceColumn (rec : Record) (f : Field) : Except WError Column :=
  match (rec.schema.zip rec.columns).find? (fun p => p.1.name = f.name) with
  | some p => do
    let cells ← p.2.cells.mapM (coerceValueToType f.type f.nullable)
    Except.ok ⟨f.type, cells⟩
  | none =>
    if f.nullable then
      Except.ok ⟨f.type, List.replicate rec.numRows.toNat none⟩
    else Except.error WError.coerceErr

def coerceColumns (rec : Record) : Schema → Except WError (List Column)
  | [] => Except.ok []
  | f :: fs => do
    let c ← coerceColumn rec f
    let cs ← coerceColumns rec fs
    Except.ok (c :: cs)

/-- Modelled from the spec: `lockbox.CoerceRecord(schema, rec)`. -/
def coerceRecord (target : Schema) (rec : Record) : Except WError Record := do
  let cols ← coerceColumns rec target
  Except.ok ⟨target, cols, rec.numRows⟩

/-- The per-batch normalization step of the record-reader loop. -/
def normalizeBatch (target : Schema) (rec : Record) : Except WError Record :=
  if rec.schema = target then Except.ok rec else coerceRecord target rec

def normalizeBatches (target : Schema) :
    List Record → Except WError (List Record)
  | [] => Except.ok []
  | r :: rs => do
    let r2 ← normalizeBatch target r
    let rest ← normalizeBatches target rs
    Except.ok (r2 :: rest)

/-- `loadDataFromORCToParquet`, on the batches the parquet reader
yields: normalize each batch to the target schema, fail with
`"no data found in Parquet file"` on zero batches, else concatenate.
(The `ok none` branch of `concatRecords` is unreachable here because
the batch list is non-empty.) -/
def loadDataFromORCToParquet (target : Schema) (batches : List Record) :
    Except WError Record := do
  let all ← normalizeBatches target batches
  if all.isEmpty then Except.error WError.noData
  else do
    let r ← concatRecords target all
    match r with
    | some rec => Except.ok rec
    | none => Except.error WError.panicIndex

/-! ## Helper lemmas -/

theorem except_bind_ok {α β : Type} {x : Except WError α}
    {f : α → Except WError β} {b : β} (h : (x >>= f) = Except.ok b) :
    ∃ a, x = Except.ok a ∧ f a = Except.ok b := by
  cases x with
  | error e => exact absurd h (by simp [Bind.bind, Except.bind])
  | ok a => exact ⟨a, rfl, by simpa [Bind.bind, Except.bind] using h⟩

/-- A produced record conforms to a schema: column count equals field
count and every column's data type equals its field's type. -/
def Conforms (s : Schema) (r : Record) : Prop :=
  r.columns.length = s.length ∧
  ∀ i, i < s.length →
    (r.columns.getD i defaultColumn).dtype = (s.getD i defaultField).type

instance (s : Schema) (r : Record) : Decidable (Conforms s r) := by
  unfold Conforms; infer_instance

theorem builderTypes_cons_ok {f : Field} {fs : Schema}
    {tys : List LogicalType} (h : builderTypes (f :: fs) = Except.ok tys) :
    ∃ ts, builderTypes fs = Except.ok ts ∧ tys = f.type :: ts := by
  unfold builderTypes at h
  split at h
  all_goals
    first
    | exact Except.noConfusion h
    | (obtain ⟨ts, h1, h2⟩ := except_bind_ok h
       exact ⟨ts, h1, (Except.ok.inj h2).symm⟩)

theorem builderTypes_ok : ∀ {s : Schema} {tys : List LogicalType},
    builderTypes s = Except.ok tys → tys = s.map Field.type := by
  intro s
  induction s with
  | nil =>
    intro tys h
    unfold builderTypes at h
    simpa using (Except.ok.inj h).symm
  | cons f fs ih =>
    intro tys h
    obtain ⟨ts, h1, h2⟩ := builderTypes_cons_ok h
    rw [h2, ih h1, List.map_cons]

theorem buildRecord_ok {s : Schema} {tys : List LogicalType}
    {rows : List (List (Option Value))} {rec : Record}
    (h : buildRecord s tys rows = Except.ok rec) :
    rec.schema = s ∧ rec.numRows = (rows.length : Int) ∧
    rec.columns.length = s.length ∧
    ∀ i, i < s.length →
      rec.columns.getD i defaultColumn =
        ⟨tys.getD i LogicalType.str, rows.map fun r => r.getD i none⟩ := by
  unfold buildRecord at h
  match s, h with
  | [], h => exact Except.noConfusion h
  | f :: fs, h =>
    have hrec := (Except.ok.inj h).symm
    subst hrec
    refine ⟨rfl, by simp, by simp, ?_⟩
    intro i hi
    rw [List.getD_eq_getElem _ _ (by simpa using hi)]
    simp [hi]

/-- Whether the CSV per-row switch treats the type as numeric or
timestamp (the cases whose empty-literal path is a parse attempt). -/
def numericOrTs : LogicalType → Bool
  | LogicalType.int64 => true
  | LogicalType.int32 => true
  | LogicalType.float64 => true
  | LogicalType.timestamp _ => true
  | _ => false

theorem coerceCSVField_empty_required {rowNum : Nat} {f : Field}
    (hn : f.nullable = false) (ht : numericOrTs f.type = true) {c : Option Value} :
    coerceCSVField rowNum f "" = Except.ok c → False := by
  intro h
  unfold coerceCSVField at h
  cases hf : f.type <;> rw [hf] at h <;> simp [numericOrTs, hf] at ht <;>
    simp [hn, parseInt64, parseInt32, parseIntBase10, digitsToNat, parseFloatQ,
      takeDigits, timeParseRFC3339] at h

theorem coerceCSVRow_ok {rowNum : Nat} : ∀ {fs : Schema} {vs : List String}
    {cs : List (Option Value)}, coerceCSVRow rowNum fs vs = Except.ok cs →
    cs.length = min fs.length vs.length ∧
    ∀ i, i < fs.length → i < vs.length →
      coerceCSVField rowNum (fs.getD i defaultField) (vs.getD i "") =
        Except.ok (cs.getD i none) := by
  intro fs
  induction fs with
  | nil =>
    intro vs cs h
    unfold coerceCSVRow at h
    exact ⟨by simpa using (Except.ok.inj h).symm ▸ rfl, fun i hi => absurd hi (by simp)⟩
  | cons f fs2 ih =>
    intro vs cs h
    cases vs with
    | nil =>
      unfold coerceCSVRow at h
      refine ⟨?_, fun i _ hi => absurd hi (by simp)⟩
      rw [← Except.ok.inj h]
      simp
    | cons v vs2 =>
      unfold coerceCSVRow at h
      obtain ⟨c, h1, h2⟩ := except_bind_ok h
      obtain ⟨cs2, h3, h4⟩ := except_bind_ok h2
      obtain ⟨hlen, hget⟩ := ih h3
      rw [← Except.ok.inj h4]
      constructor
      · simp only [List.length_cons]
        omega
      · intro i hi1 hi2
        cases i with
        | zero => simpa using h1
        | succ j =>
          simpa using hget j (by simpa using hi1) (by simpa using hi2)

theorem processCSVRows_ok {schema : Schema} {headerLen : Nat} :
    ∀ {rowNum : Nat} {rows : List (List String)}
    {out : List (List (Option Value))},
    processCSVRows schema headerLen rowNum rows = Except.ok out →
    out.length = rows.length ∧
    ∀ k, k < rows.length →
      (rows.getD k []).length = headerLen ∧
      (rows.getD k []).length = schema.length ∧
      coerceCSVRow (rowNum + k) schema (rows.getD k []) =
        Except.ok (out.getD k []) := by
  intro rowNum rows
  induction rows generalizing rowNum with
  | nil =>
    intro out h
    unfold processCSVRows at h
    exact ⟨by rw [← Except.ok.inj h]; rfl, fun k hk => absurd hk (by simp)⟩
  | cons row rest ih =>
    intro out h
    unfold processCSVRows at h
    by_cases h1 : row.length = headerLen
    · rw [if_neg (by simpa using h1)] at h
      by_cases h2 : row.length = schema.length
      · rw [if_neg (by simpa using h2)] at h
        obtain ⟨cells, h3, h4⟩ := except_bind_ok h
        obtain ⟨more, h5, h6⟩ := except_bind_ok h4
        obtain ⟨hlen, hrows⟩ := ih h5
        rw [← Except.ok.inj h6]
        refine ⟨by simpa using hlen, ?_⟩
        intro k hk
        cases k with
        | zero => exact ⟨by simpa using h1, by simpa using h2, by simpa using h3⟩
        | succ j =>
          have hj := hrows j (by simpa using hk)
          refine ⟨by simpa using hj.1, by simpa using hj.2.1, ?_⟩
          have harith : rowNum + 1 + j = rowNum + (j + 1) := by omega
          rw [harith] at hj
          simpa using hj.2.2
      · rw [if_pos h2] at h
        exact Except.noConfusion h
    · rw [if_pos h1] at h
      exact Except.noConfusion h

theorem loadDataFromFile_ok {s : Schema} {rows : List (List String)}
    {rec : Record} (h : loadDataFromFile s rows = Except.ok rec) :
    ∃ header dataRows cells, rows = header :: dataRows ∧
      processCSVRows s header.length 2 dataRows = Except.ok cells ∧
      buildRecord s (s.map Field.type) cells = Except.ok rec := by
  unfold loadDataFromFile at h
  obtain ⟨tys, h1, h2⟩ := except_bind_ok h
  rw [builderTypes_ok h1] at h2
  cases rows with
  | nil => exact Except.noConfusion h2
  | cons header dataRows =>
    obtain ⟨cells, h3, h4⟩ := except_bind_ok h2
    exact ⟨header, dataRows, cells, rfl, h3, h4⟩

theorem coerceJSONRow_ok {rowNum : Nat} : ∀ {fs : Schema} {r : JObj}
    {cs : List (Option Value)}, coerceJSONRow rowNum fs r = Except.ok cs →
    cs.length = fs.length ∧
    ∀ i, i < fs.length →
      coerceJSONField rowNum (fs.getD i defaultField) r =
        Except.ok (cs.getD i none) := by
  intro fs
  induction fs with
  | nil =>
    intro r cs h
    unfold coerceJSONRow at h
    refine ⟨?_, fun i hi => absurd hi (by simp)⟩
    rw [← Except.ok.inj h]
    rfl
  | cons f fs2 ih =>
    intro r cs h
    unfold coerceJSONRow at h
    obtain ⟨c, h1, h2⟩ := except_bind_ok h
    obtain ⟨cs2, h3, h4⟩ := except_bind_ok h2
    obtain ⟨hlen, hget⟩ := ih h3
    rw [← Except.ok.inj h4]
    refine ⟨by simpa using hlen, ?_⟩
    intro i hi
    cases i with
    | zero => simpa using h1
    | succ j => simpa using hget j (by simpa using hi)

theorem processJSONRecords_ok {schema : Schema} :
    ∀ {rowNum : Nat} {records : List JObj} {out : List (List (Option Value))},
    processJSONRecords schema rowNum records = Except.ok out →
    out.length = records.length ∧
    ∀ k, k < records.length →
      coerceJSONRow (rowNum + k) schema (records.getD k []) =
        Except.ok (out.getD k []) := by
  intro rowNum records
  induction records generalizing rowNum with
  | nil =>
    intro out h
    unfold processJSONRecords at h
    exact ⟨by rw [← Except.ok.inj h]; rfl, fun k hk => absurd hk (by simp)⟩
  | cons r rest ih =>
    intro out h
    unfold processJSONRecords at h
    obtain ⟨cells, h1, h2⟩ := except_bind_ok h
    obtain ⟨more, h3, h4⟩ := except_bind_ok h2
    obtain ⟨hlen, hrows⟩ := ih h3
    rw [← Except.ok.inj h4]
    refine ⟨by simpa using hlen, ?_⟩
    intro k hk
    cases k with
    | zero => simpa using h1
    | succ j =>
      have hj := hrows j (by simpa using hk)
      have harith : rowNum + 1 + j = rowNum + (j + 1) := by omega
      rw [harith] at hj
      simpa using hj

theorem loadDataFromJSON_ok {s : Schema} {input : List JTop} {rec : Record}
    (h : loadDataFromJSON s input = Except.ok rec) :
    ∃ records rows, parseJSONRecords input = Except.ok records ∧
      processJSONRecords s 0 records = Except.ok rows ∧
      buildRecord s (s.map Field.type) rows = Except.ok rec := by
  unfold loadDataFromJSON at h
  obtain ⟨tys, h1, h2⟩ := except_bind_ok h
  rw [builderTypes_ok h1] at h2
  obtain ⟨records, h3, h4⟩ := except_bind_ok h2
  obtain ⟨rows, h5, h6⟩ := except_bind_ok h4
  exact ⟨records, rows, h3, h5, h6⟩

/-- The data type of column `i` of a record built from the builders of
a supported schema equals field `i`'s declared type. -/
theorem buildRecord_conforms {s : Schema}
    {rows : List (List (Option Value))} {rec : Record}
    (h : buildRecord s (s.map Field.type) rows = Except.ok rec) :
    Conforms s rec := by
  obtain ⟨hs, hn, hlen, hcols⟩ := buildRecord_ok h
  refine ⟨hlen, ?_⟩
  intro i hi
  rw [hcols i hi]
  show (s.map Field.type).getD i LogicalType.str = (s.getD i defaultField).type
  rw [List.getD_eq_getElem _ _ (by simpa using hi), List.getElem_map,
    List.getD_eq_getElem _ _ hi]

theorem newRecord_ok_eq {s : Schema} {cols : List Column} {n : Int}
    {rec : Record} (h : newRecord s cols n = Except.ok rec) :
    rec = ⟨s, cols, n⟩ := by
  unfold newRecord at h
  by_cases hv : recordValidate s cols n = true
  · rw [if_pos hv] at h
    exact (Except.ok.inj h).symm
  · rw [if_neg hv] at h
    exact Except.noConfusion h

theorem newRecord_ok_conforms {s : Schema} {cols : List Column} {n : Int}
    {rec : Record} (hn : n ≠ 0) (h : newRecord s cols n = Except.ok rec) :
    Conforms s rec := by
  rw [newRecord_ok_eq h]
  unfold newRecord at h
  by_cases hv : recordValidate s cols n = true
  swap
  · rw [if_neg hv] at h
    exact Except.noConfusion h
  unfold recordValidate at hv
  rw [if_neg (by simp [hn])] at hv
  by_cases hlen : cols.length = s.length
  swap
  · rw [if_pos (by simpa using hlen)] at hv
    exact absurd hv (by simp)
  rw [if_neg (by simp [hlen])] at hv
  rw [List.all_eq_true] at hv
  refine ⟨hlen, ?_⟩
  intro i hi
  have hchecks := hv i (List.mem_range.mpr (by omega))
  simp only [Bool.and_eq_true, decide_eq_true_eq] at hchecks
  exact hchecks.1

theorem blobCells_ok {blobs : String → Option String}
    {files : String → Option (List UInt8)} : ∀ {fs : Schema}
    {cs : List (Option Value)}, blobCells blobs files fs = Except.ok cs →
    cs.length = fs.length ∧
    ∀ i, i < fs.length →
      blobCell blobs files (fs.getD i defaultField) =
        Except.ok (cs.getD i none) := by
  intro fs
  induction fs with
  | nil =>
    intro cs h
    unfold blobCells at h
    refine ⟨?_, fun i hi => absurd hi (by simp)⟩
    rw [← Except.ok.inj h]
    rfl
  | cons f fs2 ih =>
    intro cs h
    unfold blobCells at h
    obtain ⟨c, h1, h2⟩ := except_bind_ok h
    obtain ⟨cs2, h3, h4⟩ := except_bind_ok h2
    obtain ⟨hlen, hget⟩ := ih h3
    rw [← Except.ok.inj h4]
    refine ⟨by simpa using hlen, ?_⟩
    intro i hi
    cases i with
    | zero => simpa using h1
    | succ j => simpa using hget j (by simpa using hi)

theorem loadBlobRecord_ok {blobs : String → Option String}
    {files : String → Option (List UInt8)} {s : Schema} {rec : Record}
    (h : loadBlobRecord blobs files s = Except.ok rec) :
    rec.schema = s ∧ rec.numRows = 1 ∧ Conforms s rec ∧
    ∃ cs, blobCells blobs files s = Except.ok cs ∧ cs.length = s.length ∧
      ∀ i, i < s.length →
        rec.columns.getD i defaultColumn =
          ⟨blobColType (s.getD i defaultField).type, [cs.getD i none]⟩ := by
  unfold loadBlobRecord at h
  obtain ⟨cs, h1, h2⟩ := except_bind_ok h
  have hconf := newRecord_ok_conforms (by decide) h2
  have hrec := newRecord_ok_eq h2
  subst hrec
  have hlen := (blobCells_ok h1).1
  refine ⟨rfl, rfl, hconf, cs, h1, hlen, ?_⟩
  intro i hi
  have hic : i < cs.length := by omega
  have hiz : i < (s.zip cs).length := by simp [hlen, hi]
  rw [List.getD_eq_getElem _ _ (by simpa using hiz),
    List.getD_eq_getElem s defaultField hi,
    List.getD_eq_getElem cs none hic]
  simp [hiz]

theorem concatenate_ok {t : LogicalType} {a : Column} {rest : List Column}
    (hall : ∀ c ∈ a :: rest, c.dtype = t) :
    concatenate (a :: rest) =
      Except.ok ⟨t, ((a :: rest).map Column.cells).flatten⟩ := by
  have ha : a.dtype = t := hall a (by simp)
  have hcond : (rest.all fun c => decide (c.dtype = a.dtype)) = true := by
    rw [List.all_eq_true]
    intro c hc
    rw [decide_eq_true_eq, hall c (by simp [hc]), ha]
  simp only [concatenate]
  rw [if_pos hcond, ha]
  simp

theorem recColumns_ok {i : Nat} : ∀ {records : List Record},
    (∀ r ∈ records, i < r.columns.length) →
    recColumns i records =
      Except.ok (records.map fun r => r.columns.getD i defaultColumn) := by
  intro records
  induction records with
  | nil => intro _; rfl
  | cons r rs ih =>
    intro hall
    have hr : i < r.columns.length := hall r (by simp)
    unfold recColumns
    rw [List.getElem?_eq_getElem hr, ih fun r2 hr2 => hall r2 (by simp [hr2])]
    simp [Bind.bind, Except.bind, List.getElem?_eq_getElem hr]

theorem concatFields_ok {s : Schema} {records : List Record}
    (hne : records ≠ []) (hconf : ∀ r ∈ records, Conforms s r) :
    ∀ {is : List Nat}, (∀ i ∈ is, i < s.length) →
    concatFields records is = Except.ok (is.map fun i =>
      Column.mk (s.getD i defaultField).type
        ((records.map fun r =>
          (r.columns.getD i defaultColumn).cells).flatten)) := by
  intro is
  induction is with
  | nil => intro _; rfl
  | cons i is2 ih =>
    intro hall
    have hi : i < s.length := hall i (by simp)
    have hcols : ∀ r ∈ records, i < r.columns.length := by
      intro r hr
      rw [(hconf r hr).1]
      exact hi
    match records, hne, hconf, hcols with
    | r :: rs, _, hconf, hcols =>
      have hall2 : ∀ c ∈ (r :: rs).map fun r2 => r2.columns.getD i defaultColumn,
          c.dtype = (s.getD i defaultField).type := by
        intro c hc
        obtain ⟨r2, hr2, hceq⟩ := List.mem_map.mp hc
        rw [← hceq]
        exact (hconf r2 hr2).2 i hi
      rw [List.map_cons] at hall2
      unfold concatFields
      rw [recColumns_ok hcols]
      simp only [List.map_cons, Bind.bind, Except.bind]
      rw [concatenate_ok hall2, ih fun j hj => hall j (by simp [hj])]
      simp only [Bind.bind, Except.bind, List.map_cons]
      rw [Except.ok.injEq, List.cons.injEq]
      refine ⟨?_, rfl⟩
      rw [Column.mk.injEq]
      exact ⟨rfl, by simp [List.map_map, Function.comp_def]⟩

/-- The record `concatRecords` produces from a non-empty conforming
input: column `i` is the in-order concatenation of the inputs' columns
`i`, and the row count is the sum of the inputs' row counts. -/
def concatExpected (s : Schema) (records : List Record) : Record :=
  ⟨s, (List.range s.length).map fun i =>
      Column.mk (s.getD i defaultField).type
        ((records.map fun r => (r.columns.getD i defaultColumn).cells).flatten),
    (records.map Record.numRows).sum⟩

theorem concatRecords_ok {s : Schema} {records : List Record}
    (hne : records ≠ []) (hconf : ∀ r ∈ records, Conforms s r) :
    concatRecords s records = Except.ok (some (concatExpected s records)) := by
  match records, hne with
  | r :: rs, _ =>
    unfold concatRecords
    rw [concatFields_ok (by simp) hconf fun i hi => List.mem_range.mp hi]
    rfl

theorem concatExpected_col (s : Schema) (records : List Record) {i : Nat}
    (hi : i < s.length) :
    (concatExpected s records).columns.getD i defaultColumn =
      ⟨(s.getD i defaultField).type,
        (records.map fun r => (r.columns.getD i defaultColumn).cells).flatten⟩ := by
  unfold concatExpected
  rw [List.getD_eq_getElem _ _ (by simpa using hi)]
  simp [hi]

theorem concatExpected_conforms (s : Schema) (records : List Record) :
    Conforms s (concatExpected s records) := by
  refine ⟨by simp [concatExpected], ?_⟩
  intro i hi
  rw [concatExpected_col s records hi]

theorem coerceColumn_dtype {rec : Record} {f : Field} {c : Column}
    (h : coerceColumn rec f = Except.ok c) : c.dtype = f.type := by
  unfold coerceColumn at h
  cases hfind : (rec.schema.zip rec.columns).find? fun p => decide (p.1.name = f.name) with
  | some p =>
    rw [hfind] at h
    obtain ⟨cells, h1, h2⟩ := except_bind_ok h
    rw [← Except.ok.inj h2]
  | none =>
    rw [hfind] at h
    by_cases hnul : f.nullable
    · rw [if_pos hnul] at h
      rw [← Except.ok.inj h]
    · rw [if_neg hnul] at h
      exact Except.noConfusion h

theorem coerceColumns_ok {rec : Record} : ∀ {fs : Schema} {cols : List Column},
    coerceColumns rec fs = Except.ok cols →
    cols.length = fs.length ∧
    ∀ i, i < fs.length →
      (cols.getD i defaultColumn).dtype = (fs.getD i defaultField).type := by
  intro fs
  induction fs with
  | nil =>
    intro cols h
    unfold coerceColumns at h
    refine ⟨?_, fun i hi => absurd hi (by simp)⟩
    rw [← Except.ok.inj h]
    rfl
  | cons f fs2 ih =>
    intro cols h
    unfold coerceColumns at h
    obtain ⟨c, h1, h2⟩ := except_bind_ok h
    obtain ⟨cs2, h3, h4⟩ := except_bind_ok h2
    obtain ⟨hlen, hget⟩ := ih h3
    rw [← Except.ok.inj h4]
    refine ⟨by simpa using hlen, ?_⟩
    intro i hi
    cases i with
    | zero => simpa using coerceColumn_dtype h1
    | succ j => simpa using hget j (by simpa using hi)

theorem coerceRecord_conforms {t : Schema} {rec rec2 : Record}
    (h : coerceRecord t rec = Except.ok rec2) : Conforms t rec2 := by
  unfold coerceRecord at h
  obtain ⟨cols, h1, h2⟩ := except_bind_ok h
  obtain ⟨hlen, hd⟩ := coerceColumns_ok h1
  rw [← Except.ok.inj h2]
  exact ⟨hlen, hd⟩

theorem normalizeBatch_conforms {t : Schema} {r r2 : Record}
    (hr : Conforms r.schema r) (h : normalizeBatch t r = Except.ok r2) :
    Conforms t r2 := by
  unfold normalizeBatch at h
  by_cases he : r.schema = t
  · rw [if_pos he] at h
    rw [← Except.ok.inj h]
    exact he ▸ hr
  · rw [if_neg he] at h
    exact coerceRecord_conforms h

theorem normalizeBatches_ok {t : Schema} : ∀ {batches all : List Record},
    (∀ b ∈ batches, Conforms b.schema b) →
    normalizeBatches t batches = Except.ok all →
    all.length = batches.length ∧ ∀ r2 ∈ all, Conforms t r2 := by
  intro batches
  induction batches with
  | nil =>
    intro all hb h
    unfold normalizeBatches at h
    rw [← Except.ok.inj h]
    exact ⟨rfl, fun r2 hr2 => absurd hr2 (by simp)⟩
  | cons b bs ih =>
    intro all hb h
    unfold normalizeBatches at h
    obtain ⟨r2, h1, h2⟩ := except_bind_ok h
    obtain ⟨rest2, h3, h4⟩ := except_bind_ok h2
    obtain ⟨hlen, hconf⟩ := ih (fun b2 hb2 => hb b2 (by simp [hb2])) h3
    rw [← Except.ok.inj h4]
    refine ⟨by simpa using hlen, ?_⟩
    intro r3 hr3
    rcases List.mem_cons.mp hr3 with h5 | h5
    · rw [h5]
      exact normalizeBatch_conforms (hb b (by simp)) h1
    · exact hconf r3 h5

theorem loadDataFromORCToParquet_ok {t : Schema} {batches : List Record}
    {rec : Record} (hb : ∀ b ∈ batches, Conforms b.schema b)
    (h : loadDataFromORCToParquet t batches = Except.ok rec) :
    ∃ all, normalizeBatches t batches = Except.ok all ∧ all ≠ [] ∧
      (∀ r2 ∈ all, Conforms t r2) ∧ rec = concatExpected t all := by
  unfold loadDataFromORCToParquet at h
  obtain ⟨all, h1, h2⟩ := except_bind_ok h
  obtain ⟨hlen, hconf⟩ := normalizeBatches_ok hb h1
  by_cases hemp : all.isEmpty = true
  · rw [if_pos hemp] at h2
    exact Except.noConfusion h2
  · rw [if_neg hemp] at h2
    obtain ⟨r, h3, h4⟩ := except_bind_ok h2
    have hne : all ≠ [] := by simpa [List.isEmpty_iff] using hemp
    rw [concatRecords_ok hne hconf] at h3
    rw [← Except.ok.inj h3] at h4
    exact ⟨all, h1, hne, hconf, (Except.ok.inj h4).symm⟩

theorem coerceJSONField_absent {rowNum : Nat} {f : Field} {r : JObj}
    (hnul : f.nullable = true)
    (habs : lookupField r f.name = none ∨ lookupField r f.name = some JPrim.null) :
    coerceJSONField rowNum f r = Except.ok none := by
  unfold coerceJSONField
  rcases habs with h | h <;> rw [h] <;> simp [hnul]

theorem coerceJSONField_missing {rowNum : Nat} {f : Field} {r : JObj}
    (hnul : f.nullable = false)
    (habs : lookupField r f.name = none ∨ lookupField r f.name = some JPrim.null) :
    coerceJSONField rowNum f r = Except.error (WError.missingField (rowNum + 1) f.name) := by
  unfold coerceJSONField
  rcases habs with h | h <;> rw [h] <;> simp [hnul]

/-! ## Claim theorems -/

/-- C3: timestamp coercion accepts only a textual date-time-with-offset
value (any non-string JSON value is rejected, and a string without a
zone designator fails to parse), parses it to an absolute instant and
projects it to the field's declared unit by integer truncation: the
wire timestamp 2024-01-01T00:00:01Z yields 1704067201000000 in a
microsecond-unit field and 1704067201 in a second-unit field, and the
fractional second of 2024-01-01T00:00:00.999Z is truncated (not
rounded) under a second unit, in both the keyed-object and the
textual-row coercion paths. -/
theorem timestamp_coercion_unit_exact :
    (∀ (rowNum : Nat) (f : Field) (u : TimeUnit) (v : JPrim),
      f.type = LogicalType.timestamp u → (∀ s, v ≠ JPrim.str s) →
      ∃ e, coerceJSONValue rowNum f v = Except.error e) ∧
    timeParseRFC3339 "2024-01-01T00:00:01Z" = some (1704067201, 0) ∧
    timeParseRFC3339 "2024-01-01T00:00:01" = none ∧
    (∀ (sec : Int) (nsec : Nat), projectUnit TimeUnit.second sec nsec = sec) ∧
    coerceJSONValue 0 ⟨"ts", LogicalType.timestamp TimeUnit.microsecond, false⟩
        (JPrim.str "2024-01-01T00:00:01Z") =
      Except.ok (some (Value.timestamp 1704067201000000)) ∧
    coerceJSONValue 0 ⟨"ts", LogicalType.timestamp TimeUnit.second, false⟩
        (JPrim.str "2024-01-01T00:00:01Z") =
      Except.ok (some (Value.timestamp 1704067201)) ∧
    coerceJSONValue 0 ⟨"ts", LogicalType.timestamp TimeUnit.second, false⟩
        (JPrim.str "2024-01-01T00:00:00.999Z") =
      Except.ok (some (Value.timestamp 1704067200)) ∧
    coerceCSVField 2 ⟨"ts", LogicalType.timestamp TimeUnit.microsecond, false⟩
        "2024-01-01T00:00:01Z" =
      Except.ok (some (Value.timestamp 1704067201000000)) := by
  refine ⟨?_, by decide, by decide, ?_, by decide, by decide, by decide, by decide⟩
  · intro rowNum f u v hf hv
    unfold coerceJSONValue
    rw [hf]
    cases v with
    | str s => exact absurd rfl (hv s)
    | null => exact ⟨_, rfl⟩
    | bool b => exact ⟨_, rfl⟩
    | num q => exact ⟨_, rfl⟩
    | other rendered => exact ⟨_, rfl⟩
  · intro sec nsec
    rfl

/-- C3 witness: a non-textual value (the JSON number 1) into a
second-unit timestamp field is rejected. -/
theorem timestamp_coercion_unit_exact_witness :
    ∃ e, coerceJSONValue 0 ⟨"ts", LogicalType.timestamp TimeUnit.second, false⟩
      (JPrim.num 1) = Except.error e :=
  timestamp_coercion_unit_exact.1 0 ⟨"ts", LogicalType.timestamp TimeUnit.second, false⟩
    TimeUnit.second (JPrim.num 1) rfl (fun _ h => JPrim.noConfusion h)

/-- C8: the keyed-object adapter parses with a two-stage probe: if the
first top-level value decodes as a sequence of keyed objects that
decode is used (the rest of the stream ignored); only if that decode
fails does it parse the whole stream, from the start, as
newline-delimited keyed objects. -/
theorem json_two_stage_probe :
    (∀ (v : JTop) (rest : List JTop) (recs : List JObj),
      decodeArray v = some recs →
      parseJSONRecords (v :: rest) = Except.ok recs) ∧
    (∀ (v : JTop) (rest : List JTop), decodeArray v = none →
      parseJSONRecords (v :: rest) = ndjsonDecode (v :: rest)) ∧
    (∀ o1 o2 : JObj,
      parseJSONRecords [JTop.obj o1, JTop.obj o2] = Except.ok [o1, o2]) := by
  refine ⟨?_, ?_, ?_⟩
  · intro v rest recs h
    simp only [parseJSONRecords]
    rw [h]
  · intro v rest h
    simp only [parseJSONRecords]
    rw [h]
  · intro o1 o2
    simp [parseJSONRecords, decodeArray, ndjsonDecode, decodeTopObj,
      Bind.bind, Except.bind]

/-- C8 witness: a stream whose first value is a bare object (not an
array) goes through the newline-delimited fallback from the start. -/
theorem json_two_stage_probe_witness :
    parseJSONRecords [JTop.scalar] = ndjsonDecode [JTop.scalar] :=
  json_two_stage_probe.2.1 JTop.scalar [] rfl

/-- C9: the foreign-batch adapter fails with the FormatError
"no data found in Parquet file" whenever the external source yields
zero batches; an empty batch sequence never produces an output
record. -/
theorem orc_zero_batches_error :
    ∀ t : Schema, loadDataFromORCToParquet t [] = Except.error WError.noData := by
  intro t
  rfl

/-- C9 witness: the zero-batch failure at a concrete one-field target
schema. -/
theorem orc_zero_batches_error_witness :
    loadDataFromORCToParquet [⟨"x", LogicalType.int64, false⟩] [] =
      Except.error WError.noData :=
  orc_zero_batches_error [⟨"x", LogicalType.int64, false⟩]

/-- C10: in the keyed-object adapter a native JSON number (a Go
float64, modelled as an exact rational) aimed at an Int64 or Int32
field is accepted without any range or integrality check and converted
by truncation toward zero, wrapped to the target width; in particular
1.5 yields 1 (and -1.5 yields -1) with no TypeError. -/
theorem json_number_narrowing :
    (∀ (rowNum : Nat) (f : Field) (q : ℚ), f.type = LogicalType.int64 →
      coerceJSONValue rowNum f (JPrim.num q) =
        Except.ok (some (Value.int (wrapInt64 (ratTrunc q))))) ∧
    (∀ (rowNum : Nat) (f : Field) (q : ℚ), f.type = LogicalType.int32 →
      coerceJSONValue rowNum f (JPrim.num q) =
        Except.ok (some (Value.int (wrapInt32 (ratTrunc q))))) ∧
    ratTrunc (mkRat 3 2) = 1 ∧ wrapInt64 1 = 1 ∧
    ratTrunc (mkRat (-3) 2) = -1 ∧
    loadDataFromJSON [⟨"x", LogicalType.int64, false⟩]
        [JTop.obj [("x", JPrim.num (mkRat 3 2))]] =
      Except.ok ⟨[⟨"x", LogicalType.int64, false⟩],
        [⟨LogicalType.int64, [some (Value.int 1)]⟩], 1⟩ := by
  refine ⟨?_, ?_, by decide, by decide, by decide, by decide⟩
  · intro rowNum f q hf
    unfold coerceJSONValue
    rw [hf]
  · intro rowNum f q hf
    unfold coerceJSONValue
    rw [hf]

/-- C10 witness: the fractional number 3/2 into an Int64 field is
accepted and truncates to 1. -/
theorem json_number_narrowing_witness :
    coerceJSONValue 0 ⟨"x", LogicalType.int64, false⟩ (JPrim.num (mkRat 3 2)) =
      Except.ok (some (Value.int (wrapInt64 (ratTrunc (mkRat 3 2))))) :=
  json_number_narrowing.1 0 ⟨"x", LogicalType.int64, false⟩ (mkRat 3 2) rfl

/-- C1: for every schema and every adapter, a produced batch has one
column per schema field and every column's logical type equals its
field's type: the CSV and JSON builders are selected by the field
types, and the sample-data, blob and foreign-batch paths are guarded
by `array.NewRecord`'s validation, which panics instead of producing a
non-conformant batch (the foreign case assumes each input batch
conforms to its own schema, as the parquet reader guarantees, since
concatenation derives its column types from the inputs). -/
theorem adapter_schema_conformance :
    (∀ (s : Schema) (rec : Record),
      generateSampleData s = Except.ok rec → Conforms s rec) ∧
    (∀ (s : Schema) (rows : List (List String)) (rec : Record),
      loadDataFromFile s rows = Except.ok rec → Conforms s rec) ∧
    (∀ (s : Schema) (input : List JTop) (rec : Record),
      loadDataFromJSON s input = Except.ok rec → Conforms s rec) ∧
    (∀ (blobs : String → Option String) (files : String → Option (List UInt8))
        (s : Schema) (rec : Record),
      loadBlobRecord blobs files s = Except.ok rec → Conforms s rec) ∧
    (∀ (t : Schema) (batches : List Record) (rec : Record),
      (∀ b ∈ batches, Conforms b.schema b) →
      loadDataFromORCToParquet t batches = Except.ok rec → Conforms t rec) := by
  refine ⟨?_, ?_, ?_, ?_, ?_⟩
  · intro s rec h
    unfold generateSampleData at h
    exact newRecord_ok_conforms (by decide) h
  · intro s rows rec h
    obtain ⟨header, dataRows, cells, _, _, hb⟩ := loadDataFromFile_ok h
    exact buildRecord_conforms hb
  · intro s input rec h
    obtain ⟨records, rows, _, _, hb⟩ := loadDataFromJSON_ok h
    exact buildRecord_conforms hb
  · intro blobs files s rec h
    exact (loadBlobRecord_ok h).2.2.1
  · intro t batches rec hb h
    obtain ⟨all, h1, hne, hconf, hrec⟩ := loadDataFromORCToParquet_ok hb h
    rw [hrec]
    exact concatExpected_conforms t all

/-- C1 witness: the sample batch for a one-field Int64 schema is
produced and conforms. -/
theorem adapter_schema_conformance_witness :
    Conforms [⟨"id", LogicalType.int64, false⟩]
      ⟨[⟨"id", LogicalType.int64, false⟩],
        [⟨LogicalType.int64, [some (Value.int 1), some (Value.int 2),
          some (Value.int 3), some (Value.int 4), some (Value.int 5)]⟩], 5⟩ :=
  adapter_schema_conformance.1 [⟨"id", LogicalType.int64, false⟩]
    ⟨[⟨"id", LogicalType.int64, false⟩],
      [⟨LogicalType.int64, [some (Value.int 1), some (Value.int 2),
        some (Value.int 3), some (Value.int 4), some (Value.int 5)]⟩], 5⟩
    (by decide)

/-- C2 counterexample: a CSV data row with the empty literal for a
non-nullable String field does not fail at all: ingestion succeeds and
the empty string is appended as the value. -/
theorem csv_empty_nonnullable_string_accepted :
    loadDataFromFile [⟨"name", LogicalType.str, false⟩] [["name"], [""]] =
      Except.ok ⟨[⟨"name", LogicalType.str, false⟩],
        [⟨LogicalType.str, [some (Value.str "")]⟩], 1⟩ := by
  decide

/-- C2 (amended): in the keyed-object adapter an absent key or JSON
null for a non-nullable field fails with the missing-required-field
SchemaError, and a successful run implies every record had every
non-nullable field present and non-null (no row is silently dropped);
in the textual-row adapter an empty literal for a non-nullable
numeric or timestamp field fails as an invalid-literal TypeError (so
success implies those cells were non-empty), but an empty literal for
a non-nullable String field is accepted and appended as the empty
string rather than failing. -/
theorem missing_required_field_handling :
    (∀ (rowNum : Nat) (f : Field) (r : JObj), f.nullable = false →
      (lookupField r f.name = none ∨ lookupField r f.name = some JPrim.null) →
      coerceJSONField rowNum f r =
        Except.error (WError.missingField (rowNum + 1) f.name)) ∧
    (∀ (s : Schema) (input : List JTop) (records : List JObj) (rec : Record),
      parseJSONRecords input = Except.ok records →
      loadDataFromJSON s input = Except.ok rec →
      ∀ r ∈ records, ∀ f ∈ s, f.nullable = false →
        lookupField r f.name ≠ none ∧ lookupField r f.name ≠ some JPrim.null) ∧
    (∀ (s : Schema) (header : List String) (dataRows : List (List String))
        (rec : Record),
      loadDataFromFile s (header :: dataRows) = Except.ok rec →
      ∀ row ∈ dataRows, ∀ i, i < s.length →
        (s.getD i defaultField).nullable = false →
        numericOrTs (s.getD i defaultField).type = true →
        row.getD i "" ≠ "") := by
  refine ⟨fun rowNum f r => coerceJSONField_missing, ?_, ?_⟩
  · intro s input records rec hparse h r hr f hf hnul
    obtain ⟨records2, rows, hparse2, hproc, hb⟩ := loadDataFromJSON_ok h
    rw [hparse] at hparse2
    rw [← Except.ok.inj hparse2] at hproc
    obtain ⟨k, hk, hrk⟩ := List.getElem_of_mem hr
    obtain ⟨i, hi, hfi⟩ := List.getElem_of_mem hf
    have hrow := (processJSONRecords_ok hproc).2 k hk
    have hfield := (coerceJSONRow_ok hrow).2 i hi
    rw [List.getD_eq_getElem s defaultField hi, hfi,
      List.getD_eq_getElem records [] hk, hrk] at hfield
    constructor
    · intro habs
      rw [coerceJSONField_missing hnul (Or.inl habs)] at hfield
      exact Except.noConfusion hfield
    · intro habs
      rw [coerceJSONField_missing hnul (Or.inr habs)] at hfield
      exact Except.noConfusion hfield
  · intro s header dataRows rec h row hrow i hi hnul hty hempty
    obtain ⟨header2, dataRows2, cells, hrows, hproc, hb⟩ := loadDataFromFile_ok h
    have hh : header2 = header ∧ dataRows2 = dataRows := by
      have h1 := List.cons.inj hrows
      exact ⟨h1.1.symm, h1.2.symm⟩
    rw [hh.1, hh.2] at hproc
    obtain ⟨k, hk, hrk⟩ := List.getElem_of_mem hrow
    have hfacts := (processCSVRows_ok hproc).2 k hk
    rw [List.getD_eq_getElem dataRows [] hk, hrk] at hfacts
    have hrowlen : i < row.length := by rw [hfacts.2.1]; exact hi
    have hfield := (coerceCSVRow_ok hfacts.2.2).2 i hi hrowlen
    rw [hempty] at hfield
    exact coerceCSVField_empty_required hnul
      (by rw [List.getD_eq_getElem s defaultField hi] at hty ⊢; exact hty) hfield

/-- C2 witness: an absent key for a non-nullable Int64 field in a
keyed-object record fails with the missing-required-field error. -/
theorem missing_required_field_handling_witness :
    coerceJSONField 0 ⟨"id", LogicalType.int64, false⟩ [] =
      Except.error (WError.missingField 1 "id") :=
  missing_required_field_handling.1 0 ⟨"id", LogicalType.int64, false⟩ [] rfl
    (Or.inl rfl)

/-- C4 counterexample: for a schema field outside
Binary/LargeBinary/String the blob adapter's default branch builds a
String column that mismatches the field, so `array.NewRecord` panics
and no batch results — the adapter does not always produce a one-row
batch. -/
theorem blob_unsupported_field_panics :
    loadBlobRecord (fun _ => none) (fun _ => none)
      [⟨"n", LogicalType.int64, false⟩] =
      Except.error WError.panicNewRecord := by
  decide

/-- C4 (amended): whenever the blob adapter produces a batch, the batch
has exactly one row and every schema field's builder type equals the
field's type — so every field type lies in Binary/LargeBinary/String,
any other field type making record construction panic with no batch
produced; each schema field present in the mapping holds the mapped
file's full content (raw bytes for Binary or LargeBinary builders, the
decoded string otherwise, per `blobValue`), and each schema field
absent from the mapping holds a null cell unconditionally — no
hypothesis on the field's nullability. -/
theorem blob_record_single_row (blobs : String → Option String)
    (files : String → Option (List UInt8)) (s : Schema) (rec : Record)
    (h : loadBlobRecord blobs files s = Except.ok rec) :
    rec.numRows = 1 ∧ rec.columns.length = s.length ∧
    (∀ f ∈ s, blobColType f.type = f.type) ∧
    ∀ i, i < s.length →
      (rec.columns.getD i defaultColumn).cells.length = 1 ∧
      (blobs (s.getD i defaultField).name = none →
        (rec.columns.getD i defaultColumn).cells = [none]) ∧
      (∀ path data, blobs (s.getD i defaultField).name = some path →
        files path = some data →
        (rec.columns.getD i defaultColumn).cells =
          [some (blobValue (s.getD i defaultField).type data)]) := by
  obtain ⟨hs, hn, hconf, cs, hcs, hcslen, hcol⟩ := loadBlobRecord_ok h
  refine ⟨hn, hconf.1, ?_, ?_⟩
  · intro f hf
    obtain ⟨i, hi, hfi⟩ := List.getElem_of_mem hf
    have hd := hconf.2 i hi
    rw [hcol i hi] at hd
    rw [List.getD_eq_getElem s defaultField hi, hfi] at hd
    exact hd
  intro i hi
  have hcell := (blobCells_ok hcs).2 i hi
  rw [hcol i hi]
  refine ⟨rfl, ?_, ?_⟩
  · intro habs
    unfold blobCell at hcell
    rw [habs] at hcell
    rw [← Except.ok.inj hcell]
  · intro path data hpath hdata
    unfold blobCell at hcell
    rw [hpath] at hcell
    have hcell2 : (match files path with
        | some d =>
          Except.ok (some (blobValue (s.getD i defaultField).type d))
        | none =>
          Except.error (WError.readBlob (s.getD i defaultField).name)) =
        Except.ok (cs.getD i none) := hcell
    rw [hdata] at hcell2
    rw [← Except.ok.inj hcell2]

/-- C4 witness: the spec's scenario — mapping only "photo" against a
schema of a nullable Binary "photo" and a nullable String "caption"
gives one row with the file bytes in "photo" and null in "caption". -/
theorem blob_record_single_row_witness :
    ((⟨[⟨"photo", LogicalType.binary, true⟩, ⟨"caption", LogicalType.str, true⟩],
        [⟨LogicalType.binary, [some (Value.bytes [65, 66])]⟩,
          ⟨LogicalType.str, [none]⟩], 1⟩ : Record).columns.getD 1
            defaultColumn).cells = [none] :=
  ((blob_record_single_row
      (fun n => if n = "photo" then some "/tmp/a.bin" else none)
      (fun p => if p = "/tmp/a.bin" then some [65, 66] else none)
      [⟨"photo", LogicalType.binary, true⟩, ⟨"caption", LogicalType.str, true⟩]
      ⟨[⟨"photo", LogicalType.binary, true⟩, ⟨"caption", LogicalType.str, true⟩],
        [⟨LogicalType.binary, [some (Value.bytes [65, 66])]⟩,
          ⟨LogicalType.str, [none]⟩], 1⟩
      (by decide)).2.2.2 1 (by decide)).2.1 (by decide)

theorem concatExpected_eq {s : Schema} {l1 l2 : List Record}
    (hnum : (l1.map Record.numRows).sum = (l2.map Record.numRows).sum)
    (hcells : ∀ i, i < s.length →
      (l1.map fun r => (r.columns.getD i defaultColumn).cells).flatten =
        (l2.map fun r => (r.columns.getD i defaultColumn).cells).flatten) :
    concatExpected s l1 = concatExpected s l2 := by
  unfold concatExpected
  rw [Record.mk.injEq]
  refine ⟨rfl, ?_, hnum⟩
  apply List.map_congr_left
  intro i hi
  rw [Column.mk.injEq]
  exact ⟨rfl, hcells i (List.mem_range.mp hi)⟩

/-- C5: for a non-empty sequence of batches conforming to the schema,
concatenation produces for each field position the in-order
concatenation of the inputs' columns at that position (append
semantics, null positions preserved as cells) and a row count equal
to the sum of the inputs' row counts; and it is associative:
concatenating [A, B, C] and then the result with D equals
concatenating A with the result of [B, C, D]. -/
theorem concat_records_assoc_order :
    (∀ (s : Schema) (records : List Record), records ≠ [] →
      (∀ r ∈ records, Conforms s r) →
      concatRecords s records = Except.ok (some (concatExpected s records)) ∧
      (concatExpected s records).numRows = (records.map Record.numRows).sum ∧
      ∀ i, i < s.length →
        ((concatExpected s records).columns.getD i defaultColumn).cells =
          (records.map fun r => (r.columns.getD i defaultColumn).cells).flatten) ∧
    (∀ (s : Schema) (A B C D : Record),
      Conforms s A → Conforms s B → Conforms s C → Conforms s D →
      ∃ ABC BCD R,
        concatRecords s [A, B, C] = Except.ok (some ABC) ∧
        concatRecords s [B, C, D] = Except.ok (some BCD) ∧
        concatRecords s [ABC, D] = Except.ok (some R) ∧
        concatRecords s [A, BCD] = Except.ok (some R) ∧
        R.numRows = A.numRows + B.numRows + C.numRows + D.numRows) := by
  constructor
  · intro s records hne hconf
    refine ⟨concatRecords_ok hne hconf, rfl, ?_⟩
    intro i hi
    rw [concatExpected_col s records hi]
  · intro s A B C D hA hB hC hD
    have hmemABC : ∀ r ∈ [A, B, C], Conforms s r := by
      intro r hr
      simp only [List.mem_cons, List.not_mem_nil, or_false] at hr
      rcases hr with rfl | rfl | rfl
      · exact hA
      · exact hB
      · exact hC
    have hmemBCD : ∀ r ∈ [B, C, D], Conforms s r := by
      intro r hr
      simp only [List.mem_cons, List.not_mem_nil, or_false] at hr
      rcases hr with rfl | rfl | rfl
      · exact hB
      · exact hC
      · exact hD
    have hmemLeft : ∀ r ∈ [concatExpected s [A, B, C], D], Conforms s r := by
      intro r hr
      simp only [List.mem_cons, List.not_mem_nil, or_false] at hr
      rcases hr with rfl | rfl
      · exact concatExpected_conforms s [A, B, C]
      · exact hD
    have hmemRight : ∀ r ∈ [A, concatExpected s [B, C, D]], Conforms s r := by
      intro r hr
      simp only [List.mem_cons, List.not_mem_nil, or_false] at hr
      rcases hr with rfl | rfl
      · exact hA
      · exact concatExpected_conforms s [B, C, D]
    have hswap : concatExpected s [A, concatExpected s [B, C, D]] =
        concatExpected s [concatExpected s [A, B, C], D] := by
      apply concatExpected_eq
      · simp only [List.map_cons, List.map_nil, List.sum_cons, List.sum_nil]
        unfold concatExpected
        simp only [List.map_cons, List.map_nil, List.sum_cons, List.sum_nil]
        omega
      · intro i hi
        simp only [List.map_cons, List.map_nil, List.flatten_cons,
          List.flatten_nil, List.append_nil]
        rw [concatExpected_col s [B, C, D] hi, concatExpected_col s [A, B, C] hi]
        simp [List.append_assoc]
    refine ⟨concatExpected s [A, B, C], concatExpected s [B, C, D],
      concatExpected s [concatExpected s [A, B, C], D],
      concatRecords_ok (by simp) hmemABC,
      concatRecords_ok (by simp) hmemBCD,
      concatRecords_ok (by simp) hmemLeft, ?_, ?_⟩
    · rw [concatRecords_ok (by simp) hmemRight, Except.ok.injEq,
        Option.some.injEq]
      exact hswap
    · unfold concatExpected
      simp only [List.map_cons, List.map_nil, List.sum_cons, List.sum_nil]
      omega

/-- C5 witness: four concrete one-column batches (one containing a
null cell) concatenate associatively. -/
theorem concat_records_assoc_order_witness :
    ∃ ABC BCD R,
      concatRecords [⟨"x", LogicalType.int64, true⟩]
        [⟨[⟨"x", LogicalType.int64, true⟩], [⟨LogicalType.int64, [some (Value.int 1)]⟩], 1⟩,
         ⟨[⟨"x", LogicalType.int64, true⟩], [⟨LogicalType.int64, [none]⟩], 1⟩,
         ⟨[⟨"x", LogicalType.int64, true⟩], [⟨LogicalType.int64, [some (Value.int 3)]⟩], 1⟩] =
        Except.ok (some ABC) ∧
      concatRecords [⟨"x", LogicalType.int64, true⟩]
        [⟨[⟨"x", LogicalType.int64, true⟩], [⟨LogicalType.int64, [none]⟩], 1⟩,
         ⟨[⟨"x", LogicalType.int64, true⟩], [⟨LogicalType.int64, [some (Value.int 3)]⟩], 1⟩,
         ⟨[⟨"x", LogicalType.int64, true⟩], [⟨LogicalType.int64, [some (Value.int 4)]⟩], 1⟩] =
        Except.ok (some BCD) ∧
      concatRecords [⟨"x", LogicalType.int64, true⟩]
        [ABC, ⟨[⟨"x", LogicalType.int64, true⟩], [⟨LogicalType.int64, [some (Value.int 4)]⟩], 1⟩] =
        Except.ok (some R) ∧
      concatRecords [⟨"x", LogicalType.int64, true⟩]
        [⟨[⟨"x", LogicalType.int64, true⟩], [⟨LogicalType.int64, [some (Value.int 1)]⟩], 1⟩, BCD] =
        Except.ok (some R) ∧
      R.numRows = (1 : Int) + 1 + 1 + 1 :=
  concat_records_assoc_order.2 [⟨"x", LogicalType.int64, true⟩]
    ⟨[⟨"x", LogicalType.int64, true⟩], [⟨LogicalType.int64, [some (Value.int 1)]⟩], 1⟩
    ⟨[⟨"x", LogicalType.int64, true⟩], [⟨LogicalType.int64, [none]⟩], 1⟩
    ⟨[⟨"x", LogicalType.int64, true⟩], [⟨LogicalType.int64, [some (Value.int 3)]⟩], 1⟩
    ⟨[⟨"x", LogicalType.int64, true⟩], [⟨LogicalType.int64, [some (Value.int 4)]⟩], 1⟩
    (by decide) (by decide) (by decide) (by decide)

/-- C6 counterexample: a three-column data row after a two-column
header against a two-field schema does fail, but inside the csv reader
(wrong number of fields at row 2), which names the row but not the
expected and actual counts — not with the adapter's
"expected 2, got 3" FormatError the claim requires for every
mismatched row. -/
theorem csv_reader_field_count_precedence :
    loadDataFromFile
      [⟨"id", LogicalType.int64, false⟩, ⟨"age", LogicalType.int32, true⟩]
      [["id", "age"], ["1", "2", "3"]] = Except.error (WError.csvReadErr 2) := by
  decide

/-- C6 (amended): a successful CSV run implies every data row's column
count equals the schema's field count; a data row whose count matches
the header's but differs from the schema's fails with the FormatError
naming the row number and the expected and actual counts; rows whose
count differs from the header's are rejected earlier by the csv
reader with an error naming only the row.  In particular a 3-column
header and row against a 2-field schema fails with
"row 2: expected 2 fields, got 3". -/
theorem csv_field_count_failure :
    (∀ (s : Schema) (header : List String) (dataRows : List (List String))
        (rec : Record),
      loadDataFromFile s (header :: dataRows) = Except.ok rec →
      ∀ row ∈ dataRows, row.length = s.length) ∧
    (∀ (s : Schema) (headerLen rowNum : Nat) (row : List String)
        (rest : List (List String)),
      row.length = headerLen → row.length ≠ s.length →
      processCSVRows s headerLen rowNum (row :: rest) =
        Except.error (WError.fieldCount rowNum s.length row.length)) ∧
    loadDataFromFile
        [⟨"id", LogicalType.int64, false⟩, ⟨"age", LogicalType.int32, true⟩]
        [["id", "age", "extra"], ["1", "2", "3"]] =
      Except.error (WError.fieldCount 2 2 3) := by
  refine ⟨?_, ?_, by decide⟩
  · intro s header dataRows rec h row hrow
    obtain ⟨header2, dataRows2, cells, hrows, hproc, hb⟩ := loadDataFromFile_ok h
    have hh := List.cons.inj hrows
    rw [hh.1.symm, hh.2.symm] at hproc
    obtain ⟨k, hk, hrk⟩ := List.getElem_of_mem hrow
    have hfacts := (processCSVRows_ok hproc).2 k hk
    rw [List.getD_eq_getElem dataRows [] hk, hrk] at hfacts
    exact hfacts.2.1
  · intro s headerLen rowNum row rest hlen hne
    unfold processCSVRows
    rw [if_neg (by omega), if_pos hne]

/-- C6 witness: a consistent two-column CSV against a two-field schema
loads, so every data row has the schema's field count. -/
theorem csv_field_count_failure_witness :
    ∀ row ∈ [["1", "2"]], row.length =
      ([⟨"id", LogicalType.int64, false⟩, ⟨"age", LogicalType.int32, true⟩] : Schema).length :=
  csv_field_count_failure.1
    [⟨"id", LogicalType.int64, false⟩, ⟨"age", LogicalType.int32, true⟩]
    ["id", "age"] [["1", "2"]]
    ⟨[⟨"id", LogicalType.int64, false⟩, ⟨"age", LogicalType.int32, true⟩],
      [⟨LogicalType.int64, [some (Value.int 1)]⟩,
        ⟨LogicalType.int32, [some (Value.int 2)]⟩], 1⟩ (by decide)

/-- C7: in the keyed-object adapter every record contributes exactly
one cell to every column (row count preserved), and an absent key or a
JSON null for a nullable field yields a null cell at that column
position; the spec's scenario {"id": 5} against
{id: Int64 not-null, age: Int32 nullable} yields one row with id = 5
and age = null. -/
theorem json_nullable_null_routing :
    (∀ (s : Schema) (input : List JTop) (records : List JObj) (rec : Record),
      parseJSONRecords input = Except.ok records →
      loadDataFromJSON s input = Except.ok rec →
      (∀ i, i < s.length →
        (rec.columns.getD i defaultColumn).cells.length = records.length) ∧
      (∀ i k, i < s.length → k < records.length →
        (s.getD i defaultField).nullable = true →
        (lookupField (records.getD k []) (s.getD i defaultField).name = none ∨
          lookupField (records.getD k []) (s.getD i defaultField).name =
            some JPrim.null) →
        (rec.columns.getD i defaultColumn).cells.getD k (some (Value.int 0)) =
          none)) ∧
    loadDataFromJSON
        [⟨"id", LogicalType.int64, false⟩, ⟨"age", LogicalType.int32, true⟩]
        [JTop.obj [("id", JPrim.num 5)]] =
      Except.ok ⟨[⟨"id", LogicalType.int64, false⟩, ⟨"age", LogicalType.int32, true⟩],
        [⟨LogicalType.int64, [some (Value.int 5)]⟩,
          ⟨LogicalType.int32, [none]⟩], 1⟩ := by
  refine ⟨?_, by decide⟩
  intro s input records rec hparse h
  obtain ⟨records2, rows, hparse2, hproc, hb⟩ := loadDataFromJSON_ok h
  rw [hparse] at hparse2
  rw [← Except.ok.inj hparse2] at hproc
  obtain ⟨hrl, hrk⟩ := processJSONRecords_ok hproc
  obtain ⟨hs, hn, hlen, hcols⟩ := buildRecord_ok hb
  constructor
  · intro i hi
    rw [hcols i hi]
    simp [hrl]
  · intro i k hi hk hnul habs
    rw [hcols i hi]
    have hkr : k < rows.length := by rw [hrl]; exact hk
    show (rows.map fun r => r.getD i none).getD k (some (Value.int 0)) = none
    rw [List.getD_eq_getElem _ _ (by simpa using hkr), List.getElem_map]
    have hrow := hrk k hk
    have hcell := (coerceJSONRow_ok hrow).2 i hi
    rw [coerceJSONField_absent hnul habs] at hcell
    have hval : (rows.getD k []).getD i none = none := (Except.ok.inj hcell).symm
    rw [List.getD_eq_getElem rows [] hkr] at hval
    exact hval

/-- C7 witness: in the scenario record, the nullable "age" column holds
a null at row 0. -/
theorem json_nullable_null_routing_witness :
    ((⟨[⟨"id", LogicalType.int64, false⟩, ⟨"age", LogicalType.int32, true⟩],
        [⟨LogicalType.int64, [some (Value.int 5)]⟩, ⟨LogicalType.int32, [none]⟩],
        1⟩ : Record).columns.getD 1 defaultColumn).cells.getD 0
      (some (Value.int 0)) = none :=
  ((json_nullable_null_routing.1
      [⟨"id", LogicalType.int64, false⟩, ⟨"age", LogicalType.int32, true⟩]
      [JTop.obj [("id", JPrim.num 5)]] [[("id", JPrim.num 5)]]
      ⟨[⟨"id", LogicalType.int64, false⟩, ⟨"age", LogicalType.int32, true⟩],
        [⟨LogicalType.int64, [some (Value.int 5)]⟩, ⟨LogicalType.int32, [none]⟩],
        1⟩ (by decide) (by decide)).2 1 0 (by decide) (by decide) (by decide)
    (Or.inl (by decide)))

end Lockbox
